import Mathlib

/-!
Shallow embedding of the abcjs AI editor sources:
  * `src/app/utils/abc-language.ts`  — the ABC-notation stream tokenizer
    (a CodeMirror `StreamLanguage`: the token function is fed one line at a
    time, `sol` is start-of-line, and the scanner state threads across lines);
  * `src/app/components/AbcEditor.tsx` — the selection/content synchronizer
    (React effects around a CodeMirror `EditorView`).

Documents are modelled as `List Char`.  The stream operations are modelled as
in CodeMirror's `StringStream`: `eatSpace` eats a run of JS-`\s` characters,
`match` with a regex succeeds only at the current position, `next` at the end
of the line consumes nothing, `skipToEnd` consumes the rest of the line.
-/

/-- Scanner state of the tokenizer: `startState: () => ({ inHeader: true })`. -/
structure ScannerState where
  inHeader : Bool
deriving DecidableEq, Repr

/-- The classification strings returned by the token function
(`"keyword"`, `"comment"`, `"operator"`, `"variableName"`, `"modifier"`,
`"number"`, `"atom"`, `"string"`, `"punctuation"`), as an enumeration. -/
inductive Tag where
  | keyword
  | comment
  | operator
  | variableName
  | modifier
  | number
  | atom
  | string
  | punctuation
deriving DecidableEq, Repr

/-- The CSS class each tag is highlighted with (`abcHighlightStyle` in the
source): `keyword` is the Header class, `variableName` the Note class,
`operator` the Bar class, `number` the Duration class, `string` the Chord
class, and so on. -/
def abcHighlightStyle (t : Tag) : String :=
  match t with
  | .keyword => "cm-abc-header"
  | .variableName => "cm-abc-note"
  | .number => "cm-abc-duration"
  | .operator => "cm-abc-bar"
  | .comment => "cm-abc-comment"
  | .string => "cm-abc-chord"
  | .modifier => "cm-abc-accidental"
  | .atom => "cm-abc-rest"
  | .punctuation => "cm-abc-slur"

/-- JS `\s` (the class used by `StringStream.eatSpace`): space, tab, line
terminators, vertical tab, form feed, and the unicode space characters. -/
def isSpaceChar (c : Char) : Bool :=
  c = ' ' || c = '\t' || c = '\n' || c = '\x0b' || c = '\x0c' || c = '\r' ||
  c = '\u00A0' || c = '\u1680' || ('\u2000' ≤ c && c ≤ '\u200A') ||
  c = '\u2028' || c = '\u2029' || c = '\u202F' || c = '\u205F' ||
  c = '\u3000' || c = '\uFEFF'

/-- Note names: `[A-Ga-g]`. -/
def isNoteName (c : Char) : Bool :=
  ('A' ≤ c && c ≤ 'G') || ('a' ≤ c && c ≤ 'g')

/-- Octave markers following a note name: `[',]`. -/
def isOctaveMark (c : Char) : Bool :=
  c = '\'' || c = ','

/-- Accidental characters: `[\^=_]`. -/
def isAccidentalChar (c : Char) : Bool :=
  c = '^' || c = '=' || c = '_'

/-- One call of the `token` function of `abcLanguage` on a non-empty stream.
Input: scanner state, `stream.sol()`, and the remaining characters of the
current line split as head `c` and tail `rest`.  Output: the number of
characters consumed, the returned classification (`none` is JS `null`), and
the scanner state afterwards.  The branches are in source order:
whitespace skip, start-of-line header fields, `K:`, comments `%`, bar lines,
note names with octave markers, accidentals, durations, rests, quoted chords
(unterminated ones run to the end of the line), slurs/ties, and the
one-character fallback. -/
def token (st : ScannerState) (sol : Bool) (c : Char) (rest : List Char) :
    Nat × Option Tag × ScannerState :=
  if isSpaceChar c then
    (((c :: rest).takeWhile isSpaceChar).length, none, st)
  else if st.inHeader ∧ sol ∧ c.isAlpha ∧ rest.head? = some ':' then
    (2, some Tag.keyword, st)
  else if c = 'K' ∧ rest.head? = some ':' then
    (2, some Tag.keyword, { inHeader := false })
  else if c = '%' then
    ((c :: rest).length, some Tag.comment, st)
  else if c = '|' ∨ c = ':' ∨ c = '[' ∨ c = ']' then
    (1, some Tag.operator, st)
  else if isNoteName c then
    (1 + (rest.takeWhile isOctaveMark).length, some Tag.variableName, st)
  else if isAccidentalChar c then
    ((if (rest.head?.map isAccidentalChar).getD false then 2 else 1),
      some Tag.modifier, st)
  else if c.isDigit then
    (1 + (rest.takeWhile Char.isDigit).length, some Tag.number, st)
  else if c = '/' ∧ (rest.head?.map Char.isDigit).getD false then
    (1 + (rest.takeWhile Char.isDigit).length, some Tag.number, st)
  else if c = 'z' ∨ c = 'x' ∨ c = 'Z' then
    (1, some Tag.atom, st)
  else if c = '"' then
    (1 + (rest.takeWhile (fun x => !(x == '"'))).length +
       (if (rest.takeWhile (fun x => !(x == '"'))).length < rest.length then 1 else 0),
     some Tag.string, st)
  else if c = '(' ∨ c = ')' ∨ c = '-' then
    (1, some Tag.punctuation, st)
  else
    (1, none, st)

/-- The driver that repeatedly calls `token` on one line, recording for every
step the consumed span (as the list of its characters) and the returned
classification.  `fuel` bounds the number of steps; `scanLine` supplies
`fuel = cs.length`, which suffices because every step consumes at least one
character (`token_progress`). -/
def scanAux : Nat → ScannerState → Bool → List Char →
    List (List Char × Option Tag) × ScannerState
  | 0, st, _, _ => ([], st)
  | fuel + 1, st, sol, cs =>
    match cs with
    | [] => ([], st)
    | c :: rest =>
      (((c :: rest).take (token st sol c rest).1, (token st sol c rest).2.1) ::
         (scanAux fuel (token st sol c rest).2.2 false
           ((c :: rest).drop (token st sol c rest).1)).1,
       (scanAux fuel (token st sol c rest).2.2 false
         ((c :: rest).drop (token st sol c rest).1)).2)

/-- Scan one full line, starting at start-of-line. -/
def scanLine (st : ScannerState) (cs : List Char) :
    List (List Char × Option Tag) × ScannerState :=
  scanAux cs.length st true cs

/-- Split a document into its lines at `'\n'` (CodeMirror feeds the token
function one line at a time; the newline characters themselves are never part
of a stream). -/
def splitLines : List Char → List (List Char)
  | [] => [[]]
  | c :: rest =>
    if c = '\n' then [] :: splitLines rest
    else
      match splitLines rest with
      | [] => [[c]]
      | l :: ls => (c :: l) :: ls

/-- Rejoin lines with `'\n'`: the inverse of `splitLines`. -/
def joinLines : List (List Char) → List Char
  | [] => []
  | [l] => l
  | l :: ls => l ++ '\n' :: joinLines ls

/-- Scan a list of lines in order, threading the scanner state across lines
as the CodeMirror parse does. -/
def tokenizeLines : ScannerState → List (List Char) →
    List (List (List Char × Option Tag)) × ScannerState
  | st, [] => ([], st)
  | st, l :: ls =>
    ((scanLine st l).1 :: (tokenizeLines (scanLine st l).2 ls).1,
     (tokenizeLines (scanLine st l).2 ls).2)

/-- `startState: () => ({ inHeader: true })`. -/
def startState : ScannerState := { inHeader := true }

/-- Full tokenization of a document from the start state: the concatenation,
in order, of the per-line step records. -/
def tokenize (cs : List Char) : List (List Char × Option Tag) :=
  ((tokenizeLines startState (splitLines cs)).1).flatten

/-- The accidental branch consumes one or two characters. -/
theorem one_le_accidental_consumed (b : Bool) : 1 ≤ (if b then 2 else 1 : Nat) := by
  cases b <;> decide

/-- The chord branch consumes at least the opening quote. -/
theorem one_le_chord_consumed (w r : Nat) :
    1 ≤ 1 + w + (if w < r then 1 else 0) := by
  by_cases h : w < r
  · rw [if_pos h]; omega
  · rw [if_neg h]; omega

/-- Every call of the token function on a non-empty stream consumes at least
one character. -/
theorem token_progress (st : ScannerState) (sol : Bool) (c : Char)
    (rest : List Char) : 1 ≤ (token st sol c rest).1 := by
  rw [token]
  by_cases h1 : isSpaceChar c
  · rw [if_pos h1]
    exact List.length_pos.mpr (by simp [List.takeWhile_cons, h1])
  rw [if_neg h1]
  by_cases h2 : st.inHeader ∧ sol ∧ c.isAlpha ∧ rest.head? = some ':'
  · rw [if_pos h2]; exact one_le_two
  rw [if_neg h2]
  by_cases h3 : c = 'K' ∧ rest.head? = some ':'
  · rw [if_pos h3]; exact one_le_two
  rw [if_neg h3]
  by_cases h4 : c = '%'
  · rw [if_pos h4]; exact Nat.succ_le_succ (Nat.zero_le _)
  rw [if_neg h4]
  by_cases h5 : c = '|' ∨ c = ':' ∨ c = '[' ∨ c = ']'
  · rw [if_pos h5]
  rw [if_neg h5]
  by_cases h6 : isNoteName c
  · rw [if_pos h6]; exact Nat.le_add_right 1 _
  rw [if_neg h6]
  by_cases h7 : isAccidentalChar c
  · rw [if_pos h7]; exact one_le_accidental_consumed _
  rw [if_neg h7]
  by_cases h8 : c.isDigit
  · rw [if_pos h8]; exact Nat.le_add_right 1 _
  rw [if_neg h8]
  by_cases h9 : c = '/' ∧ (rest.head?.map Char.isDigit).getD false
  · rw [if_pos h9]; exact Nat.le_add_right 1 _
  rw [if_neg h9]
  by_cases h10 : c = 'z' ∨ c = 'x' ∨ c = 'Z'
  · rw [if_pos h10]
  rw [if_neg h10]
  by_cases h11 : c = '"'
  · rw [if_pos h11]; exact one_le_chord_consumed _ _
  rw [if_neg h11]
  by_cases h12 : c = '(' ∨ c = ')' ∨ c = '-'
  · rw [if_pos h12]
  rw [if_neg h12]

/-- With fuel at least the length of the remaining input, the consumed spans
of a scan concatenate back to the input. -/
theorem scanAux_join : ∀ (fuel : Nat) (st : ScannerState) (sol : Bool)
    (cs : List Char), cs.length ≤ fuel →
    (((scanAux fuel st sol cs).1).map Prod.fst).flatten = cs := by
  intro fuel
  induction fuel with
  | zero =>
    intro st sol cs h
    have hnil : cs = [] := List.length_eq_zero.mp (Nat.le_zero.mp h)
    subst hnil
    simp [scanAux]
  | succ n ih =>
    intro st sol cs h
    cases cs with
    | nil => simp [scanAux]
    | cons c rest =>
      have hp := token_progress st sol c rest
      have hlen : ((c :: rest).drop (token st sol c rest).1).length ≤ n := by
        rw [List.length_drop]
        simp only [List.length_cons] at h ⊢
        omega
      have hrec := ih (token st sol c rest).2.2 false
        ((c :: rest).drop (token st sol c rest).1) hlen
      simp only [scanAux, List.map_cons, List.flatten_cons]
      rw [hrec, List.take_append_drop]

/-- A scan performs at most as many steps as there are input characters. -/
theorem scanAux_length : ∀ (fuel : Nat) (st : ScannerState) (sol : Bool)
    (cs : List Char), ((scanAux fuel st sol cs).1).length ≤ cs.length := by
  intro fuel
  induction fuel with
  | zero => intro st sol cs; simp [scanAux]
  | succ n ih =>
    intro st sol cs
    cases cs with
    | nil => simp [scanAux]
    | cons c rest =>
      have hp := token_progress st sol c rest
      have hrec := ih (token st sol c rest).2.2 false
        ((c :: rest).drop (token st sol c rest).1)
      simp only [scanAux, List.length_cons, List.length_drop] at hrec ⊢
      omega

/-- Scanning the empty stream performs no step. -/
theorem scanAux_nil (fuel : Nat) (st : ScannerState) (sol : Bool) :
    scanAux fuel st sol [] = ([], st) := by
  cases fuel <;> simp [scanAux]

/-- The consumed spans of one line concatenate back to the line. -/
theorem scanLine_join (st : ScannerState) (cs : List Char) :
    (((scanLine st cs).1).map Prod.fst).flatten = cs :=
  scanAux_join cs.length st true cs le_rfl

/-- `splitLines` never returns the empty list of lines. -/
theorem splitLines_ne_nil : ∀ cs : List Char, splitLines cs ≠ [] := by
  intro cs
  induction cs with
  | nil => simp [splitLines]
  | cons c rest ih =>
    by_cases h : c = '\n'
    · simp [splitLines, h]
    · simp only [splitLines, if_neg h]
      cases hs : splitLines rest with
      | nil => simp
      | cons l ls => simp

/-- Rejoining the split lines reconstructs the document. -/
theorem joinLines_splitLines : ∀ cs : List Char, joinLines (splitLines cs) = cs := by
  intro cs
  induction cs with
  | nil => simp [splitLines, joinLines]
  | cons c rest ih =>
    by_cases h : c = '\n'
    · subst h
      simp only [splitLines, if_pos rfl]
      cases hs : splitLines rest with
      | nil => exact absurd hs (splitLines_ne_nil rest)
      | cons l ls =>
        rw [hs] at ih
        simp only [joinLines, List.nil_append]
        cases ls with
        | nil => simp [joinLines] at ih ⊢; exact ih
        | cons y ys => simp [joinLines] at ih ⊢; exact ih
    · simp only [splitLines, if_neg h]
      cases hs : splitLines rest with
      | nil => exact absurd hs (splitLines_ne_nil rest)
      | cons l ls =>
        rw [hs] at ih
        cases ls with
        | nil => simp [joinLines] at ih ⊢; exact ih
        | cons y ys =>
          simp [joinLines] at ih ⊢
          exact ih

/-- The total length of the split lines is at most the document length. -/
theorem splitLines_sumLen : ∀ cs : List Char,
    (((splitLines cs).map List.length).sum) ≤ cs.length := by
  intro cs
  induction cs with
  | nil => simp [splitLines]
  | cons c rest ih =>
    by_cases h : c = '\n'
    · simp only [splitLines, if_pos h, List.map_cons, List.sum_cons,
        List.length_cons, List.length_nil]
      omega
    · simp only [splitLines, if_neg h]
      cases hs : splitLines rest with
      | nil => exact absurd hs (splitLines_ne_nil rest)
      | cons l ls =>
        rw [hs] at ih
        simp only [List.map_cons, List.sum_cons, List.length_cons] at ih ⊢
        omega

/-- Per line, the concatenated consumed spans give back exactly that line. -/
theorem tokenizeLines_chunks : ∀ (ls : List (List Char)) (st : ScannerState),
    ((tokenizeLines st ls).1).map (fun ts => (ts.map Prod.fst).flatten) = ls := by
  intro ls
  induction ls with
  | nil => intro st; simp [tokenizeLines]
  | cons l ls ih =>
    intro st
    simp only [tokenizeLines, List.map_cons]
    rw [scanLine_join, ih]

/-- The total number of steps over all lines is at most the total length of
the lines. -/
theorem tokenizeLines_count : ∀ (ls : List (List Char)) (st : ScannerState),
    (((tokenizeLines st ls).1).flatten).length ≤ ((ls.map List.length).sum) := by
  intro ls
  induction ls with
  | nil => intro st; simp [tokenizeLines]
  | cons l ls ih =>
    intro st
    simp only [tokenizeLines, List.flatten_cons, List.length_append,
      List.map_cons, List.sum_cons]
    have h1 : ((scanLine st l).1).length ≤ l.length :=
      scanAux_length l.length st true l
    have h2 := ih (scanLine st l).2
    omega

/-!
Embedding of the selection/content synchronizer of `AbcEditor.tsx`.

An `EditorView` holds the widget's buffer and its main selection
(anchor/head); the update listener installed at creation
(`EditorView.updateListener.of`) reports every transaction to the host:
document changes through `onChange` with the full new text, and selection
changes through `onSelectionChange` with `selection.main.from/to` — it never
consults the reentrancy ref.  The component keeps `viewRef`
(modelled by `viewAttached`), `isInternalChangeRef` (initialised `false`, and
in the source never assigned `true`), and the deferred focus callbacks
scheduled with `setTimeout` (modelled by a count of outstanding timeouts,
since the source never stores or clears a timeout id).
-/

/-- The widget state: document, main selection, and whether `destroy()` has
run. -/
structure EditorView where
  doc : List Char
  selAnchor : Nat
  selHead : Nat
  destroyed : Bool
deriving DecidableEq, Repr

/-- Calls the component makes into its host: `onChange(newValue)`,
`onSelectionChange(from, to)`, and the `console.warn` on an invalid external
selection range (recording the requested bounds and the document length). -/
inductive HostEvent where
  | onChange (text : List Char)
  | onSelectionChange (selFrom selTo : Nat)
  | warn (reqFrom reqTo : Int) (docLength : Nat)
deriving DecidableEq, Repr

/-- The update listener (source lines 42–53): on `docChanged` report the new
document to `onChange`; on `selectionSet`, and when the host supplied an
`onSelectionChange` callback, report `selection.main.from/to`. -/
def updateListener (hasOnSelectionChange : Bool) (docChanged : Bool)
    (newDoc : List Char) (selectionSet : Bool) (selFrom selTo : Nat) :
    List HostEvent :=
  (if docChanged then [HostEvent.onChange newDoc] else []) ++
    (if selectionSet && hasOnSelectionChange then
      [HostEvent.onSelectionChange selFrom selTo] else [])

/-- Replacing the range `[f, t)` of a document with `ins`. -/
def replaceRange (doc : List Char) (f t : Nat) (ins : List Char) : List Char :=
  doc.take f ++ ins ++ doc.drop t

/-- CodeMirror's position mapping through a replacement of `[f, t)` by a text
of length `insLen`: positions before the change keep their offset, positions
after it shift by the length difference, positions inside the replaced range
collapse to its start. -/
def mapPosReplace (f t insLen : Nat) (p : Nat) : Nat :=
  if p ≤ f then p
  else if t ≤ p then p - t + insLen + f
  else f

/-- Dispatching a transaction that only contains a change replacing `[f, t)`
by `ins` (the dispatch in the `value` effect): the document is updated, the
old selection is mapped through the change, and the update listener runs
synchronously with `docChanged` set (a change spec is empty only when it
deletes nothing and inserts nothing) and `selectionSet` unset. -/
def dispatchChange (hasOnSelectionChange : Bool) (v : EditorView)
    (f t : Nat) (ins : List Char) : EditorView × List HostEvent :=
  ({ v with
      doc := replaceRange v.doc f t ins,
      selAnchor := mapPosReplace f t ins.length v.selAnchor,
      selHead := mapPosReplace f t ins.length v.selHead },
   updateListener hasOnSelectionChange (decide ¬(f = t ∧ ins = []))
     (replaceRange v.doc f t ins) false
     (min (mapPosReplace f t ins.length v.selAnchor)
       (mapPosReplace f t ins.length v.selHead))
     (max (mapPosReplace f t ins.length v.selAnchor)
       (mapPosReplace f t ins.length v.selHead)))

/-- Dispatching a transaction that only sets the selection (the dispatch in
the `selectedRange` effect; the scroll-into-view effect does not touch the
state we track): the update listener runs synchronously with `selectionSet`
set and `docChanged` unset. -/
def dispatchSelection (hasOnSelectionChange : Bool) (v : EditorView)
    (anchor head : Nat) : EditorView × List HostEvent :=
  ({ v with selAnchor := anchor, selHead := head },
   updateListener hasOnSelectionChange false v.doc true
     (min anchor head) (max anchor head))

/-- An externally requested selection range, as the host hands it in
(arbitrary integers; validation happens inside the effect). -/
structure SelectedRange where
  fromPos : Int
  toPos : Int
deriving DecidableEq, Repr

/-- The component's mutable state: the created widget, whether
`viewRef.current` still points at it, the `isInternalChangeRef` flag, and the
number of outstanding deferred focus timeouts. -/
structure AbcEditorModel where
  view : EditorView
  viewAttached : Bool
  isInternalChange : Bool
  pendingFocus : Nat
deriving DecidableEq, Repr

/-- The `selectedRange` effect (source lines 197–223).  When a view is
attached, a range is present, and the reentrancy flag is unset: validate
`0 ≤ from`, `0 ≤ to`, `from ≤ docLength`, `to ≤ docLength`, `from ≤ to`;
if valid, dispatch the selection (which synchronously runs the update
listener) and schedule a deferred focus; otherwise log a warning and change
nothing.  In every path the effect finally writes `false` into the
reentrancy flag. -/
def selectedRangeEffect (hasOnSelectionChange : Bool) (m : AbcEditorModel)
    (selectedRange : Option SelectedRange) : AbcEditorModel × List HostEvent :=
  match selectedRange with
  | none => ({ m with isInternalChange := false }, [])
  | some r =>
    if m.viewAttached ∧ ¬ m.isInternalChange then
      if 0 ≤ r.fromPos ∧ 0 ≤ r.toPos ∧ r.fromPos ≤ (m.view.doc.length : Int) ∧
          r.toPos ≤ (m.view.doc.length : Int) ∧ r.fromPos ≤ r.toPos then
        ({ m with
            view := (dispatchSelection hasOnSelectionChange m.view
              r.fromPos.toNat r.toPos.toNat).1,
            isInternalChange := false,
            pendingFocus := m.pendingFocus + 1 },
         (dispatchSelection hasOnSelectionChange m.view
           r.fromPos.toNat r.toPos.toNat).2)
      else
        ({ m with isInternalChange := false },
         [HostEvent.warn r.fromPos r.toPos m.view.doc.length])
    else ({ m with isInternalChange := false }, [])

/-- The `value` effect (source lines 172–185): with a view attached, compare
the requested text with the widget's current text; if they differ, dispatch
one change replacing `[0, currentValue.length)` by the new text; otherwise do
nothing. -/
def valueEffect (hasOnSelectionChange : Bool) (m : AbcEditorModel)
    (value : List Char) : AbcEditorModel × List HostEvent :=
  if m.viewAttached then
    if m.view.doc ≠ value then
      ({ m with
          view := (dispatchChange hasOnSelectionChange m.view 0
            m.view.doc.length value).1 },
       (dispatchChange hasOnSelectionChange m.view 0
         m.view.doc.length value).2)
    else (m, [])
  else (m, [])

/-- The mount effect's cleanup (source lines 165–168): `view.destroy()` and
`viewRef.current = null`.  No timeout id was ever stored, so no deferred
focus callback is cleared here. -/
def cleanupEffect (m : AbcEditorModel) : AbcEditorModel :=
  { m with
      view := { m.view with destroyed := true },
      viewAttached := false }

/-- One deferred focus callback firing (source lines 215–217): it only calls
`view.focus()`, which changes none of the state tracked here; on a destroyed
view the call is a harmless no-op. -/
def focusTimeout (m : AbcEditorModel) : AbcEditorModel :=
  { m with pendingFocus := m.pendingFocus - 1 }

/-- A freshly mounted editor over a given document: selection at 0, view
attached, reentrancy flag false, no pending focus. -/
def mountEditor (doc : List Char) : AbcEditorModel :=
  { view := { doc := doc, selAnchor := 0, selHead := 0, destroyed := false },
    viewAttached := true,
    isInternalChange := false,
    pendingFocus := 0 }

/-- The ten-character document `"0123456789"` of the spec's example, and the
editor mounted over it. -/
def sampleModel : AbcEditorModel :=
  mountEditor ['0', '1', '2', '3', '4', '5', '6', '7', '8', '9']

/-- The input of the spec's tokenization example:
`"X:1\nT:Title\nK:C\nABC|def"`. -/
def exampleInput : List Char :=
  ['X', ':', '1', '\n', 'T', ':', 'T', 'i', 't', 'l', 'e', '\n',
   'K', ':', 'C', '\n', 'A', 'B', 'C', '|', 'd', 'e', 'f']

/-- Characters other than the closing double-quote are all kept by
`eatWhile`. -/
theorem takeWhile_ne_quote (rest : List Char) (h : '"' ∉ rest) :
    rest.takeWhile (fun x => !(x == '"')) = rest := by
  induction rest with
  | nil => rfl
  | cons a l ih =>
    simp only [List.mem_cons, not_or] at h
    have ha : (!(a == '"')) = true := by
      cases hq : a == '"' <;> simp_all
    rw [List.takeWhile_cons, if_pos ha, ih h.2]

/-- Evaluation of the token function at an opening double-quote: the chord
branch fires for every state, start-of-line flag, and remaining input. -/
theorem token_quote (st : ScannerState) (sol : Bool) (rest : List Char) :
    token st sol '"' rest =
      (1 + (rest.takeWhile (fun x => !(x == '"'))).length +
        (if (rest.takeWhile (fun x => !(x == '"'))).length < rest.length
          then 1 else 0),
       some Tag.string, st) := by
  have n2 : ¬ (st.inHeader ∧ sol ∧ Char.isAlpha '"' ∧ rest.head? = some ':') := by
    rintro ⟨-, -, hA, -⟩
    exact absurd hA (by decide)
  have n3 : ¬ (('"' : Char) = 'K' ∧ rest.head? = some ':') := by
    rintro ⟨hK, -⟩
    exact absurd hK (by decide)
  have n9 : ¬ (('"' : Char) = '/' ∧ (rest.head?.map Char.isDigit).getD false) := by
    rintro ⟨hS, -⟩
    exact absurd hS (by decide)
  rw [token,
    if_neg (by decide : ¬ (isSpaceChar '"' = true)), if_neg n2, if_neg n3,
    if_neg (by decide : ¬ (('"' : Char) = '%')),
    if_neg (by decide :
      ¬ (('"' : Char) = '|' ∨ ('"' : Char) = ':' ∨ ('"' : Char) = '[' ∨
        ('"' : Char) = ']')),
    if_neg (by decide : ¬ (isNoteName '"' = true)),
    if_neg (by decide : ¬ (isAccidentalChar '"' = true)),
    if_neg (by decide : ¬ (Char.isDigit '"' = true)),
    if_neg n9,
    if_neg (by decide :
      ¬ (('"' : Char) = 'z' ∨ ('"' : Char) = 'x' ∨ ('"' : Char) = 'Z')),
    if_pos (rfl : ('"' : Char) = '"')]

/-- Claim C1 — evaluation of the code at the failing input.  On the mounted
ten-character document, the valid external selection request `(2, 5)` makes
the synchronously-run update listener call the host's `onSelectionChange`
with `(2, 5)`: the notification the claim says is suppressed is delivered.
(`isInternalChangeRef` is initialised `false`, never assigned `true`
anywhere in the source, and the update listener never reads it.) -/
theorem C1_suppression_missing_eval :
    (selectedRangeEffect true sampleModel
      (some { fromPos := 2, toPos := 5 })).2 =
      [HostEvent.onSelectionChange 2 5] := by decide

/-- Claim C2 — counterexample to the claim as stated.  On the line `K:C` the
start-of-line header branch (rule 2) matches `K:` first and returns with the
scanner state unchanged, so `inHeader` does NOT become false at that token;
after tokenizing the whole example input the state still has
`inHeader = true`. -/
theorem C2_counterexample :
    token { inHeader := true } true 'K' [':', 'C'] =
      (2, some Tag.keyword, { inHeader := true }) ∧
    (tokenizeLines startState (splitLines exampleInput)).2 =
      { inHeader := true } := by decide

/-- Claim C2 — the amended statement.  Tokenizing
`"X:1\nT:Title\nK:C\nABC|def"` emits Header (`keyword`) for `X:`, `T:` and
`K:`, Note (`variableName`) for `A`, `B`, `C`, Bar (`operator`) for `|`, and
Note for `d`, `e`, `f` — but the scanner's `inHeader` flag remains true at
and after the `K:` token (the start-of-line header rule pre-empts the
header-ending `K:` rule). -/
theorem C2_amended_tokens :
    tokenize exampleInput =
      [(['X', ':'], some Tag.keyword), (['1'], some Tag.number),
       (['T', ':'], some Tag.keyword), (['T'], none), (['i'], none),
       (['t'], none), (['l'], none), (['e'], some Tag.variableName),
       (['K', ':'], some Tag.keyword), (['C'], some Tag.variableName),
       (['A'], some Tag.variableName), (['B'], some Tag.variableName),
       (['C'], some Tag.variableName), (['|'], some Tag.operator),
       (['d'], some Tag.variableName), (['e'], some Tag.variableName),
       (['f'], some Tag.variableName)] ∧
    (tokenizeLines startState (splitLines exampleInput)).2.inHeader = true := by
  decide

/-- Claim C3 — counterexample to the claim as stated.  The tokenizer is fed
one line at a time; the newline separators are advanced over by the driver
and belong to no step's span, so on `"a\nb"` the concatenation of all
consumed spans is `"ab"`, not the original text. -/
theorem C3_counterexample :
    ((tokenize ['a', '\n', 'b']).map Prod.fst).flatten ≠ ['a', '\n', 'b'] := by
  decide

/-- Claim C3 — the amended statement.  For every input text, within each
line the consumed spans are contiguous and non-overlapping (each step's span
begins where the previous ended, which the chunk-list representation makes
intrinsic), and re-joining the per-line concatenations with the newline
separators reconstructs the input exactly. -/
theorem C3_amended_roundtrip : ∀ cs : List Char,
    joinLines (((tokenizeLines startState (splitLines cs)).1).map
      (fun ts => (ts.map Prod.fst).flatten)) = cs := by
  intro cs
  rw [tokenizeLines_chunks]
  exact joinLines_splitLines cs

/-- Claim C4 — progress and step bound.  Every tokenizer step on a non-empty
remaining input consumes at least one character, and consequently a full
scan of a document performs at most as many steps as the document has
characters. -/
theorem C4_progress_and_bound :
    (∀ (st : ScannerState) (sol : Bool) (c : Char) (rest : List Char),
      1 ≤ (token st sol c rest).1) ∧
    (∀ cs : List Char, (tokenize cs).length ≤ cs.length) := by
  constructor
  · exact token_progress
  · intro cs
    have h1 := tokenizeLines_count (splitLines cs) startState
    have h2 := splitLines_sumLen cs
    exact le_trans h1 h2

/-- Claim C5 — invalid external selection requests are rejected.  With a
view attached and the reentrancy flag clear (its only reachable value), a
request with an inverted range, a negative bound, or a bound beyond the
document length produces exactly the logged warning and leaves the model —
document, selection, and pending-focus count — unchanged. -/
theorem C5_invalid_rejected (hs : Bool) (m : AbcEditorModel)
    (r : SelectedRange) (hAtt : m.viewAttached = true)
    (hFlag : m.isInternalChange = false)
    (hInv : r.toPos < r.fromPos ∨ r.fromPos < 0 ∨ r.toPos < 0 ∨
      (m.view.doc.length : Int) < r.fromPos ∨
      (m.view.doc.length : Int) < r.toPos) :
    selectedRangeEffect hs m (some r) =
      (m, [HostEvent.warn r.fromPos r.toPos m.view.doc.length]) := by
  have hvalid : ¬ (0 ≤ r.fromPos ∧ 0 ≤ r.toPos ∧
      r.fromPos ≤ (m.view.doc.length : Int) ∧
      r.toPos ≤ (m.view.doc.length : Int) ∧ r.fromPos ≤ r.toPos) := by
    rintro ⟨h1, h2, h3, h4, h5⟩
    rcases hInv with h | h | h | h | h <;> omega
  obtain ⟨v, att, flag, pf⟩ := m
  simp only at hAtt hFlag
  subst hAtt hFlag
  simp [selectedRangeEffect, hvalid]

/-- Claim C5 — witness: the inverted request `(5, 2)` on the mounted
ten-character document is rejected with a warning and no state change. -/
theorem C5_invalid_rejected_witness :
    selectedRangeEffect true sampleModel (some { fromPos := 5, toPos := 2 }) =
      (sampleModel, [HostEvent.warn 5 2 sampleModel.view.doc.length]) :=
  C5_invalid_rejected true sampleModel { fromPos := 5, toPos := 2 } rfl rfl
    (Or.inl (by decide))

/-- Claim C6 — external content updates.  With a view attached: if the
requested text equals the widget's current text the effect is a no-op with
no host event; otherwise the effect is exactly one dispatched edit replacing
`[0, priorLength)`, after which the widget's text equals the new text and
the host receives a single `onChange` with it. -/
theorem C6_external_content (hs : Bool) (m : AbcEditorModel)
    (value : List Char) (hAtt : m.viewAttached = true) :
    (m.view.doc = value → valueEffect hs m value = (m, [])) ∧
    (m.view.doc ≠ value →
      valueEffect hs m value =
        ({ m with
            view := (dispatchChange hs m.view 0 m.view.doc.length value).1 },
         (dispatchChange hs m.view 0 m.view.doc.length value).2) ∧
      (valueEffect hs m value).1.view.doc = value ∧
      (valueEffect hs m value).2 = [HostEvent.onChange value]) := by
  constructor
  · intro heq
    simp [valueEffect, hAtt, heq]
  · intro hne
    have hEff : valueEffect hs m value =
        ({ m with
            view := (dispatchChange hs m.view 0 m.view.doc.length value).1 },
         (dispatchChange hs m.view 0 m.view.doc.length value).2) := by
      simp [valueEffect, hAtt, hne]
    have hdc : ¬ (0 = m.view.doc.length ∧ value = []) := by
      rintro ⟨h0, hv⟩
      apply hne
      subst hv
      exact List.length_eq_zero.mp h0.symm
    refine ⟨hEff, ?_, ?_⟩
    · rw [hEff]
      show (dispatchChange hs m.view 0 m.view.doc.length value).1.doc = value
      simp [dispatchChange, replaceRange]
    · rw [hEff]
      show (dispatchChange hs m.view 0 m.view.doc.length value).2 = _
      simp [dispatchChange, updateListener, replaceRange, hdc]

/-- Claim C6 — witness: setting the current text again is a no-op, and
setting a different text replaces the buffer with it. -/
theorem C6_external_content_witness :
    valueEffect true sampleModel sampleModel.view.doc = (sampleModel, []) ∧
    (valueEffect true (mountEditor ['a', 'b']) ['a', 'c']).1.view.doc =
      ['a', 'c'] := by
  constructor
  · exact (C6_external_content true sampleModel sampleModel.view.doc rfl).1 rfl
  · exact ((C6_external_content true (mountEditor ['a', 'b']) ['a', 'c']
      rfl).2 (by decide)).2.1

/-- Claim C7 — counterexample to the claim as stated.  The fallback branch
returns the same `null` classification as the whitespace skip (there is no
`Plain` tag in the code), and on a one-character whitespace input the two
steps produce identical outputs, so the two cases are not distinguishable at
the tokenizer's output. -/
theorem C7_counterexample :
    (token startState false '~' []).2.1 = none ∧
    token startState false ' ' [] = token startState false '~' [] := by
  decide

/-- Claim C7 — the amended statement.  A step that begins at whitespace
consumes the whole whitespace run and returns no classification; a step that
reaches the fallback branch (`'~'` matches no earlier rule for any state,
start-of-line flag, or following input) consumes exactly one character and
likewise returns no classification.  They differ in consumption, not in
emitted tag. -/
theorem C7_whitespace_vs_fallback :
    (∀ (st : ScannerState) (sol : Bool) (c : Char) (rest : List Char),
      isSpaceChar c = true →
        token st sol c rest =
          (((c :: rest).takeWhile isSpaceChar).length, none, st)) ∧
    (∀ (st : ScannerState) (sol : Bool) (rest : List Char),
      token st sol '~' rest = (1, none, st)) := by
  constructor
  · intro st sol c rest h
    rw [token, if_pos h]
  · intro st sol rest
    have n2 : ¬ (st.inHeader ∧ sol ∧ Char.isAlpha '~' ∧
        rest.head? = some ':') := by
      rintro ⟨-, -, hA, -⟩
      exact absurd hA (by decide)
    have n3 : ¬ (('~' : Char) = 'K' ∧ rest.head? = some ':') := by
      rintro ⟨hK, -⟩
      exact absurd hK (by decide)
    have n9 : ¬ (('~' : Char) = '/' ∧
        (rest.head?.map Char.isDigit).getD false) := by
      rintro ⟨hS, -⟩
      exact absurd hS (by decide)
    rw [token,
      if_neg (by decide : ¬ (isSpaceChar '~' = true)), if_neg n2, if_neg n3,
      if_neg (by decide : ¬ (('~' : Char) = '%')),
      if_neg (by decide :
        ¬ (('~' : Char) = '|' ∨ ('~' : Char) = ':' ∨ ('~' : Char) = '[' ∨
          ('~' : Char) = ']')),
      if_neg (by decide : ¬ (isNoteName '~' = true)),
      if_neg (by decide : ¬ (isAccidentalChar '~' = true)),
      if_neg (by decide : ¬ (Char.isDigit '~' = true)),
      if_neg n9,
      if_neg (by decide :
        ¬ (('~' : Char) = 'z' ∨ ('~' : Char) = 'x' ∨ ('~' : Char) = 'Z')),
      if_neg (by decide : ¬ (('~' : Char) = '"')),
      if_neg (by decide :
        ¬ (('~' : Char) = '(' ∨ ('~' : Char) = ')' ∨ ('~' : Char) = '-'))]

/-- Claim C7 — witness: on a single space and on `'~'` both steps consume
one character and return no classification. -/
theorem C7_whitespace_vs_fallback_witness :
    token startState true ' ' [] = (1, none, startState) ∧
    token startState true '~' [] = (1, none, startState) := by
  constructor
  · exact (C7_whitespace_vs_fallback.1 startState true ' ' [] rfl).trans
      (by decide)
  · exact C7_whitespace_vs_fallback.2 startState true []

/-- Claim C8 — counterexample to the claim as stated.  The tokenizer's
stream is one line: on the input `"\"a\nb"`, whose opening quote is never
closed, the chord token stops at the end of the first line and scanning
resumes on the next line — the emitted tokens are not a single `Chord`
spanning to the end of the input. -/
theorem C8_counterexample :
    tokenize ['"', 'a', '\n', 'b'] =
      [(['"', 'a'], some Tag.string), (['b'], some Tag.variableName)] := by
  decide

/-- Claim C8 — the amended statement.  For every stream (line) that begins
with a double-quote with no closing double-quote after it, the scan does not
fail: it consumes from the opening quote through the end of that stream and
emits exactly one token, tagged Chord (`string`), leaving the scanner state
unchanged. -/
theorem C8_unterminated_chord (st : ScannerState) (rest : List Char)
    (h : '"' ∉ rest) :
    scanLine st ('"' :: rest) = ([('"' :: rest, some Tag.string)], st) := by
  have htw := takeWhile_ne_quote rest h
  have htok : token st true '"' rest = (1 + rest.length, some Tag.string, st) := by
    rw [token_quote, htw, if_neg (lt_irrefl rest.length)]
    simp
  show scanAux ('"' :: rest).length st true ('"' :: rest) = _
  rw [List.length_cons]
  simp only [scanAux, htok]
  rw [List.take_of_length_le (by rw [List.length_cons]; omega),
    List.drop_of_length_le (by rw [List.length_cons]; omega), scanAux_nil]

/-- Claim C8 — witness: scanning the unterminated chord line `"\"ab"` yields
the single Chord token covering the whole line. -/
theorem C8_unterminated_chord_witness :
    scanLine startState ['"', 'a', 'b'] =
      ([(['"', 'a', 'b'], some Tag.string)], startState) :=
  C8_unterminated_chord startState ['a', 'b'] (by decide)

/-- Claim C9 — counterexample to the claim as stated.  After a successful
external selection request has scheduled a deferred focus callback, running
the teardown does not cancel it: no timeout id was stored and none is
cleared, so one deferred focus callback is still outstanding. -/
theorem C9_counterexample :
    (cleanupEffect (selectedRangeEffect true sampleModel
      (some { fromPos := 2, toPos := 5 })).1).pendingFocus ≠ 0 := by decide

/-- Claim C9 — the amended statement.  The teardown is idempotent (running
it twice equals running it once, and it raises no error), but it leaves the
count of pending deferred focus callbacks untouched; the leftover callback
later fires against the destroyed view as a harmless no-op. -/
theorem C9_destroy_behaviour (m : AbcEditorModel) :
    cleanupEffect (cleanupEffect m) = cleanupEffect m ∧
    (cleanupEffect m).pendingFocus = m.pendingFocus :=
  ⟨rfl, rfl⟩

/-- Claim C10 — a null (absent) `selectedRange` makes the external-selection
effect perform no action: the view (document and selection) is unchanged, no
focus is scheduled, and no host event — warning included — is emitted. -/
theorem C10_null_range_noop (hs : Bool) (m : AbcEditorModel) :
    (selectedRangeEffect hs m none).1.view = m.view ∧
    (selectedRangeEffect hs m none).1.pendingFocus = m.pendingFocus ∧
    (selectedRangeEffect hs m none).2 = [] :=
  ⟨rfl, rfl, rfl⟩
